import Mathlib

/-!
Shallow embedding of the concurrent map coordinator of `cmap.go`
(package `cmap`, repository decillion/go-hmap).

The coordinator (`Map`, `NewMap`, `Load`, `Store`, `Delete`, `Range`,
`resizeIfNeeded` and the numeric policy constants) is translated directly
from `src/cmap.go`.  The underlying fixed-capacity hash table
(`hmap.Map`, imported from the external package `go-cmap/hmap`, not part
of this repository's sources) is modelled from the spec as an
association list of entries that are either live (`some v`) or
tombstoned (`none`), with the statistics interface the spec requires.

Modelling conventions:
* Go `uint` arithmetic is `Nat` with explicit wrap modulo `2 ^ 64`
  (`usub64` for subtraction); the statistics reported by a table are
  list counts, which in Go are `uint` values.
* the Go comparison `float32(entries) / float32(buckets) > maxLoadFactor`
  is embedded as the exact integer comparison
  `maxLoadFactor * buckets < entries`; the two agree on every value whose
  numerator and products are exactly representable in `float32`
  (in particular on all the concrete inputs appearing below).
* the sequential semantics of each operation is modelled as a pure state
  transformer on the coordinator state; the `inResize` counter and its
  effect on the resize policy are represented explicitly.  A visitor that
  panics is modelled by `Except`: `Range` with a visitor returning
  `.error e` propagates the exception exactly where the Go code would
  propagate the panic.
-/

namespace Cmap

/-- Numeric policy constant from `cmap.go` line 13: `iniCapacity = 1 << 4`. -/
def iniCapacity : Nat := 1 <<< 4

/-- Numeric policy constant from `cmap.go` line 14: `minLoadFactor = 2`. -/
def minLoadFactor : Nat := 2

/-- Numeric policy constant from `cmap.go` line 15: `midLoadFactor = 4`. -/
def midLoadFactor : Nat := 4

/-- Numeric policy constant from `cmap.go` line 16: `maxLoadFactor = 6`. -/
def maxLoadFactor : Nat := 6

/-- Numeric policy constant from `cmap.go` line 17: `maxBucketSize = 18`. -/
def maxBucketSize : Nat := 18

/-- Numeric policy constant from `cmap.go` line 18:
`minMapSize = iniCapacity * midLoadFactor`. -/
def minMapSize : Nat := iniCapacity * midLoadFactor

/-- Modulus of Go `uint` (64-bit) arithmetic. -/
def uintW : Nat := 2 ^ 64

/-- Go `uint` subtraction `a - b`: wraps modulo `2 ^ 64`. -/
def usub64 (a b : Nat) : Nat := (a % uintW + (uintW - b % uintW)) % uintW

section Table

variable {K V : Type} [DecidableEq K]

/-- Modelled from the spec: the external collaborator `hmap.Map`
(package `go-cmap/hmap`, not under this repository's sources) — a
fixed-capacity hash table whose entries are live or tombstoned.  The
entry storage is an association list; an item `(k, some v)` is a live
entry, `(k, none)` a tombstone left by a logical deletion.  The capacity
and the hasher are fixed at construction. -/
structure Hmap (K V : Type) where
  capacity : Nat
  hasher : K → Nat
  items : List (K × Option V)

/-- Modelled from the spec: first item of the list whose key is `k`
(a table stores at most one item per key). -/
def findItem (k : K) : List (K × Option V) → Option (Option V)
  | [] => none
  | p :: rest => if p.1 = k then some p.2 else findItem k rest

/-- Modelled from the spec: `hmap.Map.Load` — get the value of a live
entry; a tombstoned or absent key reports not-found (`none`). -/
def Hmap.Load (t : Hmap K V) (k : K) : Option V :=
  match findItem k t.items with
  | some (some v) => some v
  | _ => none

/-- Modelled from the spec: in-place store on the item list — overwrite
the item carrying key `k` (reviving it if tombstoned), or append a fresh
live item when the key is absent. -/
def setStore (k : K) (v : V) : List (K × Option V) → List (K × Option V)
  | [] => [(k, some v)]
  | p :: rest => if p.1 = k then (k, some v) :: rest else p :: setStore k v rest

/-- Modelled from the spec: `hmap.Map.Store` — in-place insert or
overwrite of a key. -/
def Hmap.Store (t : Hmap K V) (k : K) (v : V) : Hmap K V :=
  { t with items := setStore k v t.items }

/-- Modelled from the spec: logical removal on the item list — the item
carrying key `k`, if any, becomes a tombstone; an absent key is a no-op. -/
def setDelete (k : K) : List (K × Option V) → List (K × Option V)
  | [] => []
  | p :: rest => if p.1 = k then (p.1, none) :: rest else p :: setDelete k rest

/-- Modelled from the spec: `hmap.Map.Delete` — logical removal
(tombstone) of a key. -/
def Hmap.Delete (t : Hmap K V) (k : K) : Hmap K V :=
  { t with items := setDelete k t.items }

/-- Modelled from the spec: the live key-value pairs of a table, in
native item order (tombstones skipped). -/
def Hmap.liveList (t : Hmap K V) : List (K × V) :=
  t.items.filterMap (fun p => p.2.map (fun v => (p.1, v)))

/-- Modelled from the spec: `hmap.Map.StatEntries` — the live-entry
count and the tombstone count. -/
def Hmap.StatEntries (t : Hmap K V) : Nat × Nat :=
  (t.items.countP (fun p => p.2.isSome), t.items.countP (fun p => p.2.isNone))

/-- Modelled from the spec: `hmap.Map.StatBuckets` — the bucket count
(the fixed capacity) and the size of the largest bucket under
modulus-based bucket selection by the 32-bit hash. -/
def Hmap.StatBuckets (t : Hmap K V) : Nat × Nat :=
  (t.capacity,
    (List.range t.capacity).foldl
      (fun acc b => max acc (t.items.countP (fun p => t.hasher p.1 % t.capacity == b))) 0)

/-- Modelled from the spec: `hmap.NewMap` — an empty table of the given
capacity and hasher. -/
def Hmap.NewMap (cap : Nat) (h : K → Nat) : Hmap K V := ⟨cap, h, []⟩

/-- Modelled from the spec: `hmap.Map.Range` with a visitor that may
throw (modelling a Go panic as an `Except.error`): walk the live entries
in native order, stop early when the visitor returns `false`, propagate
a throw immediately. -/
def forEachE {E : Type} : List (K × V) → (K → V → Except E Bool) → Except E Unit
  | [], _ => Except.ok ()
  | p :: rest, f =>
    match f p.1 p.2 with
    | Except.error e => Except.error e
    | Except.ok true => forEachE rest f
    | Except.ok false => Except.ok ()

end Table

section Coordinator

variable {K V : Type} [DecidableEq K]

/-- The coordinator state, from `cmap.go` lines 22–27: the current
table (`hm`, an atomically readable reference), the in-flight-iteration
counter (`inResize`) and the hasher.  The mutex has no separate pure
state: the sequential semantics below executes each critical section
atomically. -/
structure Map (K V : Type) where
  hm : Hmap K V
  inResize : Int
  hasher : K → Nat

/-- `NewMap` from `cmap.go` lines 37–41: an empty map with the initial
capacity. -/
def NewMap (h : K → Nat) : Map K V := ⟨Hmap.NewMap iniCapacity h, 0, h⟩

/-- `Load` from `cmap.go` lines 45–49: read the current table and
delegate the lookup; `none` models the Go `(nil, false)` result. -/
def Map.Load (m : Map K V) (k : K) : Option V := m.hm.Load k

/-- The resize decision of `resizeIfNeeded`, `cmap.go` lines 84–107, as
a function of the suspend counter and the four statistics; `some cap`
means a new table of capacity `cap` is built and published, `none` means
the resize is skipped.  All capacity arithmetic is Go `uint` arithmetic
(wrap modulo `2 ^ 64`). -/
def resizeDecision (inResize : Int) (entries deleted buckets largest : Nat) : Option Nat :=
  if inResize ≠ 0 then none
  else if entries < minMapSize then none
  else if maxLoadFactor * buckets < entries ∨ maxBucketSize < largest then
    some (usub64 (2 * buckets) 1)
  else if entries % uintW < 5 * (deleted % uintW) % uintW then
    some (usub64 entries deleted / minLoadFactor)
  else none

/-- The rebuild of `resizeIfNeeded`, `cmap.go` lines 108–113: build a
new table of the chosen capacity with the coordinator's hasher, walk
every live entry of the old table and store it into the new one. -/
def rebuild (cap : Nat) (h : K → Nat) (t : Hmap K V) : Hmap K V :=
  t.liveList.foldl (fun nt p => nt.Store p.1 p.2) (Hmap.NewMap cap h)

/-- `resizeIfNeeded` from `cmap.go` lines 83–115: skip when suspended or
below the minimum size or when no rule matches; otherwise rebuild at the
decided capacity and publish the new table as current. -/
def Map.resizeIfNeeded (m : Map K V) : Map K V :=
  match resizeDecision m.inResize (m.hm.StatEntries).1 (m.hm.StatEntries).2
      (m.hm.StatBuckets).1 (m.hm.StatBuckets).2 with
  | none => m
  | some cap => { m with hm := rebuild cap m.hasher m.hm }

/-- `Store` from `cmap.go` lines 52–58: under the lock, mutate the
current table in place, then run the resize step. -/
def Map.Store (m : Map K V) (k : K) (v : V) : Map K V :=
  Map.resizeIfNeeded { m with hm := m.hm.Store k v }

/-- `Delete` from `cmap.go` lines 61–67: under the lock, tombstone the
key in the current table in place, then run the resize step. -/
def Map.Delete (m : Map K V) (k : K) : Map K V :=
  Map.resizeIfNeeded { m with hm := m.hm.Delete k }

/-- `Range` from `cmap.go` lines 71–80: increment `inResize` under the
lock, walk the current table, then decrement.  The decrement on line 79
is a plain statement, not deferred: when the visitor throws, the throw
propagates before the decrement executes, so the returned state keeps
the incremented counter together with the propagated exception. -/
def Map.RangeE {E : Type} (m : Map K V) (f : K → V → Except E Bool) : Map K V × Option E :=
  let m1 : Map K V := { m with inResize := m.inResize + 1 }
  match forEachE m1.hm.liveList f with
  | Except.ok _ => ({ m1 with inResize := m1.inResize - 1 }, none)
  | Except.error e => (m1, some e)

end Coordinator

section Lemmas

variable {K V : Type} [DecidableEq K]

/-- Well-formedness of a table: at most one item per key.  Every table
the coordinator ever creates satisfies it. -/
abbrev Hmap.WF (t : Hmap K V) : Prop := (t.items.map Prod.fst).Nodup

theorem findItem_setStore_self (k : K) (v : V) (l : List (K × Option V)) :
    findItem k (setStore k v l) = some (some v) := by
  induction l with
  | nil => simp [setStore, findItem]
  | cons p rest ih =>
    by_cases h : p.1 = k <;> simp [setStore, findItem, h, ih]

theorem findItem_setStore_ne (k k' : K) (v : V) (l : List (K × Option V))
    (h : k' ≠ k) : findItem k' (setStore k v l) = findItem k' l := by
  induction l with
  | nil => simp [setStore, findItem, Ne.symm h]
  | cons p rest ih =>
    by_cases hp : p.1 = k
    · simp [setStore, findItem, hp, Ne.symm h, ih]
    · simp [setStore, findItem, hp, ih]

theorem Hmap.Load_Store_self (t : Hmap K V) (k : K) (v : V) :
    (t.Store k v).Load k = some v := by
  simp [Hmap.Load, Hmap.Store, findItem_setStore_self]

theorem Hmap.Load_Store_ne (t : Hmap K V) (k k' : K) (v : V) (h : k' ≠ k) :
    (t.Store k v).Load k' = t.Load k' := by
  simp [Hmap.Load, Hmap.Store, findItem_setStore_ne k k' v t.items h]

theorem findItem_setDelete_self (k : K) (l : List (K × Option V)) :
    findItem k (setDelete k l) = none ∨ findItem k (setDelete k l) = some none := by
  induction l with
  | nil => simp [setDelete, findItem]
  | cons p rest ih =>
    by_cases h : p.1 = k <;> simp [setDelete, findItem, h, ih]

theorem findItem_setDelete_ne (k k' : K) (l : List (K × Option V))
    (h : k' ≠ k) : findItem k' (setDelete k l) = findItem k' l := by
  induction l with
  | nil => simp [setDelete, findItem]
  | cons p rest ih =>
    by_cases hp : p.1 = k
    · simp [setDelete, findItem, hp, Ne.symm h, ih]
    · simp [setDelete, findItem, hp, ih]

theorem Hmap.Load_Delete_self (t : Hmap K V) (k : K) :
    (t.Delete k).Load k = none := by
  rcases findItem_setDelete_self k t.items with h | h <;>
    simp [Hmap.Load, Hmap.Delete, h]

theorem Hmap.Load_Delete_ne (t : Hmap K V) (k k' : K) (h : k' ≠ k) :
    (t.Delete k).Load k' = t.Load k' := by
  simp [Hmap.Load, Hmap.Delete, findItem_setDelete_ne k k' t.items h]

theorem mem_keys_setStore (a k : K) (v : V) (l : List (K × Option V)) :
    a ∈ (setStore k v l).map Prod.fst ↔ a ∈ l.map Prod.fst ∨ a = k := by
  induction l with
  | nil => simp [setStore]
  | cons p rest ih =>
    by_cases h : p.1 = k
    · subst h
      simp [setStore]
      tauto
    · simp [setStore, h, ih]
      tauto

theorem nodup_keys_setStore (k : K) (v : V) (l : List (K × Option V))
    (hnd : (l.map Prod.fst).Nodup) : ((setStore k v l).map Prod.fst).Nodup := by
  induction l with
  | nil => simp [setStore]
  | cons p rest ih =>
    simp only [List.map_cons, List.nodup_cons] at hnd
    by_cases h : p.1 = k
    · simp only [setStore, h, if_pos, List.map_cons, List.nodup_cons]
      exact ⟨h ▸ hnd.1, hnd.2⟩
    · simp only [setStore, h, if_false, List.map_cons, List.nodup_cons]
      refine ⟨?_, ih hnd.2⟩
      intro hc
      rcases (mem_keys_setStore p.1 k v rest).1 hc with hc | hc
      · exact hnd.1 hc
      · exact h hc

theorem Hmap.WF_Store (t : Hmap K V) (k : K) (v : V) (hwf : t.WF) :
    (t.Store k v).WF :=
  nodup_keys_setStore k v t.items hwf

theorem keys_setDelete (k : K) (l : List (K × Option V)) :
    (setDelete k l).map Prod.fst = l.map Prod.fst := by
  induction l with
  | nil => simp [setDelete]
  | cons p rest ih =>
    by_cases h : p.1 = k <;> simp [setDelete, h, ih]

theorem Hmap.WF_Delete (t : Hmap K V) (k : K) (hwf : t.WF) :
    (t.Delete k).WF := by
  show ((setDelete k t.items).map Prod.fst).Nodup
  rw [keys_setDelete]
  exact hwf

theorem findItem_eq_none_of_not_mem (k : K) (l : List (K × Option V))
    (h : k ∉ l.map Prod.fst) : findItem k l = none := by
  induction l with
  | nil => simp [findItem]
  | cons p rest ih =>
    simp only [List.map_cons, List.mem_cons] at h
    push_neg at h
    simp [findItem, Ne.symm h.1, ih h.2]

/-- First value bound to a key in a plain association list. -/
def assocFind (k : K) : List (K × V) → Option V
  | [] => none
  | p :: rest => if p.1 = k then some p.2 else assocFind k rest

theorem Load_foldl_Store_not_mem (l : List (K × V)) (t : Hmap K V) (k : K)
    (h : k ∉ l.map Prod.fst) :
    (l.foldl (fun nt p => nt.Store p.1 p.2) t).Load k = t.Load k := by
  induction l generalizing t with
  | nil => rfl
  | cons p rest ih =>
    simp only [List.map_cons, List.mem_cons] at h
    push_neg at h
    rw [List.foldl_cons, ih (t.Store p.1 p.2) h.2,
      Hmap.Load_Store_ne t p.1 k p.2 h.1]

theorem Load_foldl_Store (l : List (K × V)) (t : Hmap K V) (k : K)
    (hnd : (l.map Prod.fst).Nodup) :
    (l.foldl (fun nt p => nt.Store p.1 p.2) t).Load k =
      match assocFind k l with
      | some v => some v
      | none => t.Load k := by
  induction l generalizing t with
  | nil => rfl
  | cons p rest ih =>
    simp only [List.map_cons, List.nodup_cons] at hnd
    rw [List.foldl_cons]
    by_cases h : p.1 = k
    · subst h
      rw [Load_foldl_Store_not_mem rest (t.Store p.1 p.2) p.1 hnd.1,
        Hmap.Load_Store_self]
      simp [assocFind]
    · rw [ih (t.Store p.1 p.2) hnd.2]
      simp only [assocFind, h, if_false]
      cases assocFind k rest <;>
        simp [Hmap.Load_Store_ne t p.1 k p.2 (Ne.symm h)]

theorem assocFind_eq_none_of_not_mem (k : K) (l : List (K × V))
    (h : k ∉ l.map Prod.fst) : assocFind k l = none := by
  induction l with
  | nil => simp [assocFind]
  | cons p rest ih =>
    simp only [List.map_cons, List.mem_cons] at h
    push_neg at h
    simp [assocFind, Ne.symm h.1, ih h.2]

omit [DecidableEq K] in
theorem keys_liveOf_sublist (l : List (K × Option V)) :
    ((l.filterMap (fun p => p.2.map (fun v => (p.1, v)))).map
        Prod.fst).Sublist (l.map Prod.fst) := by
  induction l with
  | nil => simp
  | cons p rest ih =>
    cases hv : p.2 with
    | none => simpa [hv] using ih.cons p.1
    | some v => simpa [hv] using ih.cons₂ p.1

theorem assocFind_liveOf (l : List (K × Option V)) (k : K)
    (hnd : (l.map Prod.fst).Nodup) :
    assocFind k (l.filterMap (fun p => p.2.map (fun v => (p.1, v)))) =
      match findItem k l with
      | some (some v) => some v
      | _ => none := by
  induction l with
  | nil => simp [findItem, assocFind]
  | cons p rest ih =>
    simp only [List.map_cons, List.nodup_cons] at hnd
    cases hv : p.2 with
    | none =>
      by_cases h : p.1 = k
      · subst h
        have hnotin : p.1 ∉ (rest.filterMap
            (fun p => p.2.map (fun v => (p.1, v)))).map Prod.fst :=
          fun hc => hnd.1 ((keys_liveOf_sublist rest).subset hc)
        simp [findItem, hv, assocFind_eq_none_of_not_mem _ _ hnotin]
      · simp [findItem, assocFind, hv, h, ih hnd.2]
    | some v =>
      by_cases h : p.1 = k
      · subst h
        simp [findItem, assocFind, hv]
      · simp [findItem, assocFind, hv, h, ih hnd.2]

theorem assocFind_liveList (t : Hmap K V) (hwf : t.WF) (k : K) :
    assocFind k t.liveList = t.Load k :=
  assocFind_liveOf t.items k hwf

omit [DecidableEq K] in
theorem nodup_keys_liveList (t : Hmap K V) (hwf : t.WF) :
    ((t.liveList).map Prod.fst).Nodup :=
  (keys_liveOf_sublist t.items).nodup hwf

theorem Hmap.Load_rebuild (cap : Nat) (h : K → Nat) (t : Hmap K V)
    (hwf : t.WF) (k : K) : (rebuild cap h t).Load k = t.Load k := by
  rw [rebuild, Load_foldl_Store t.liveList (Hmap.NewMap cap h) k
    (nodup_keys_liveList t hwf), assocFind_liveList t hwf k]
  cases hL : t.Load k with
  | none => rfl
  | some v => rfl

theorem WF_foldl_Store (l : List (K × V)) (t : Hmap K V) (hwf : t.WF) :
    (l.foldl (fun nt p => nt.Store p.1 p.2) t).WF := by
  induction l generalizing t with
  | nil => exact hwf
  | cons p rest ih =>
    exact ih (t.Store p.1 p.2) (Hmap.WF_Store t p.1 p.2 hwf)

omit [DecidableEq K] in
theorem Hmap.WF_NewMap (cap : Nat) (h : K → Nat) :
    (Hmap.NewMap cap h : Hmap K V).WF :=
  List.nodup_nil

theorem Hmap.WF_rebuild (cap : Nat) (h : K → Nat) (t : Hmap K V) :
    (rebuild cap h t).WF :=
  WF_foldl_Store t.liveList (Hmap.NewMap cap h) (Hmap.WF_NewMap cap h)

theorem noneCount_setStore (k : K) (v : V) (l : List (K × Option V))
    (h : l.countP (fun p => p.2.isNone) = 0) :
    (setStore k v l).countP (fun p => p.2.isNone) = 0 := by
  induction l with
  | nil => simp [setStore]
  | cons p rest ih =>
    rw [List.countP_cons] at h
    have h0 : rest.countP (fun p => p.2.isNone) = 0 := by omega
    by_cases hp : p.1 = k
    · simp only [setStore, hp, if_pos, List.countP_cons, h0]
      simp
    · simp only [setStore, hp, if_false, List.countP_cons, ih h0]
      omega

theorem noneCount_foldl_Store (l : List (K × V)) (t : Hmap K V)
    (h : t.items.countP (fun p => p.2.isNone) = 0) :
    ((l.foldl (fun nt p => nt.Store p.1 p.2) t).items).countP
      (fun p => p.2.isNone) = 0 := by
  induction l generalizing t with
  | nil => exact h
  | cons p rest ih =>
    exact ih (t.Store p.1 p.2) (noneCount_setStore p.1 p.2 t.items h)

/-- The table produced by a rebuild carries no tombstone: its
deleted-entry statistic is zero. -/
theorem rebuild_noTombstones (cap : Nat) (h : K → Nat) (t : Hmap K V) :
    ((rebuild cap h t).StatEntries).2 = 0 :=
  noneCount_foldl_Store t.liveList (Hmap.NewMap cap h) rfl

theorem Map.WF_resizeIfNeeded (m : Map K V) (hwf : m.hm.WF) :
    (m.resizeIfNeeded).hm.WF := by
  rw [Map.resizeIfNeeded]
  cases hD : resizeDecision m.inResize (m.hm.StatEntries).1 (m.hm.StatEntries).2
      (m.hm.StatBuckets).1 (m.hm.StatBuckets).2 with
  | none => exact hwf
  | some cap => exact Hmap.WF_rebuild cap m.hasher m.hm

theorem Map.Load_resizeIfNeeded (m : Map K V) (hwf : m.hm.WF) (k : K) :
    (m.resizeIfNeeded).Load k = m.Load k := by
  rw [Map.resizeIfNeeded]
  cases hD : resizeDecision m.inResize (m.hm.StatEntries).1 (m.hm.StatEntries).2
      (m.hm.StatBuckets).1 (m.hm.StatBuckets).2 with
  | none => rfl
  | some cap => exact Hmap.Load_rebuild cap m.hasher m.hm hwf k

theorem uintW_eq : uintW = 18446744073709551616 := by norm_num [uintW]

theorem resizeDecision_eq_none (iR : Int) (e d b l : Nat)
    (h : iR ≠ 0 ∨ e < minMapSize ∨
      (¬(maxLoadFactor * b < e ∨ maxBucketSize < l) ∧
        ¬(e % uintW < 5 * (d % uintW) % uintW))) :
    resizeDecision iR e d b l = none := by
  unfold resizeDecision
  rcases h with h | h | ⟨h1, h2⟩
  · simp [h]
  · by_cases hiR : iR ≠ 0 <;> simp [hiR, h]
  · by_cases hiR : iR ≠ 0
    · simp [hiR]
    · by_cases hsm : e < minMapSize
      · simp [hiR, hsm]
      · simp [hiR, hsm, h1]
        simpa using h2

theorem Map.resizeIfNeeded_eq_self (m : Map K V)
    (h : resizeDecision m.inResize (m.hm.StatEntries).1 (m.hm.StatEntries).2
      (m.hm.StatBuckets).1 (m.hm.StatBuckets).2 = none) :
    m.resizeIfNeeded = m := by
  rw [Map.resizeIfNeeded, h]

end Lemmas

section Claims

variable {K V : Type} [DecidableEq K]

/-- C1: no resize ever executes while the suspend-resize counter is
non-zero — when `inResize ≠ 0` at the check, the resize step made by
`Store` or `Delete` returns the state unchanged (the current table
reference is kept, no new table is built), so the whole effect of the
write is its own in-place mutation of the current table. -/
theorem resize_skipped_when_suspended (m : Map K V) (k k' : K) (v : V)
    (h : m.inResize ≠ 0) :
    m.resizeIfNeeded = m ∧
      m.Store k v = ⟨m.hm.Store k v, m.inResize, m.hasher⟩ ∧
      m.Delete k' = ⟨m.hm.Delete k', m.inResize, m.hasher⟩ := by
  refine ⟨Map.resizeIfNeeded_eq_self m (resizeDecision_eq_none _ _ _ _ _ (Or.inl h)),
    Map.resizeIfNeeded_eq_self _ (resizeDecision_eq_none _ _ _ _ _ (Or.inl h)),
    Map.resizeIfNeeded_eq_self _ (resizeDecision_eq_none _ _ _ _ _ (Or.inl h))⟩

/-- Witness state for the suspended-resize claim: a map whose table
would grow (64 live entries in 10 buckets) but whose suspend counter is
held at 1 by an in-flight iteration. -/
def mSusp : Map Nat Nat :=
  ⟨⟨10, fun n => n, (List.range 64).map (fun i => (i, some i))⟩, 1, fun n => n⟩

theorem resize_skipped_when_suspended_witness :
    mSusp.resizeIfNeeded = mSusp ∧
      mSusp.Store 99 7 = ⟨mSusp.hm.Store 99 7, mSusp.inResize, mSusp.hasher⟩ ∧
      mSusp.Delete 3 = ⟨mSusp.hm.Delete 3, mSusp.inResize, mSusp.hasher⟩ :=
  resize_skipped_when_suspended mSusp 99 3 7 (by decide)

/-- C2: the code does not restore the suspend counter when the visitor
throws.  Walking a one-entry map with a visitor that throws propagates
the throw and leaves `inResize` at the incremented value 1 — the
decrement on line 79 of `cmap.go` is a plain statement, not deferred —
whereas a walk that completes normally restores the counter to 0. -/
theorem range_panic_leaves_counter_elevated :
    ((⟨⟨16, fun n => n, [(0, some 0)]⟩, 0, fun n => n⟩ : Map Nat Nat).RangeE
        (fun _ _ => (Except.error () : Except Unit Bool))).1.inResize = 1 ∧
      ((⟨⟨16, fun n => n, [(0, some 0)]⟩, 0, fun n => n⟩ : Map Nat Nat).RangeE
        (fun _ _ => (Except.error () : Except Unit Bool))).2 = some () ∧
      ((⟨⟨16, fun n => n, [(0, some 0)]⟩, 0, fun n => n⟩ : Map Nat Nat).RangeE
        (fun _ _ => (Except.ok true : Except Unit Bool))).1.inResize = 0 := by
  decide

/-- C3: round-trip — on any well-formed state, `Store(k, v)` followed by
`Load(k)` returns the stored value, whether or not the store triggered a
resize. -/
theorem store_load_roundtrip (m : Map K V) (k : K) (v : V) (hwf : m.hm.WF) :
    (m.Store k v).Load k = some v := by
  rw [Map.Store,
    Map.Load_resizeIfNeeded { m with hm := m.hm.Store k v }
      (Hmap.WF_Store m.hm k v hwf) k]
  exact Hmap.Load_Store_self m.hm k v

/-- Witness state for the round-trip claim: 63 live entries in 10
buckets, so the next store crosses the minimum size and triggers a
grow. -/
def mPre : Map Nat Nat :=
  ⟨⟨10, fun n => n, (List.range 63).map (fun i => (i, some i))⟩, 0, fun n => n⟩

theorem store_load_roundtrip_witness :
    (mPre.Store 100 7).Load 100 = some 7 :=
  store_load_roundtrip mPre 100 7 (by decide)

/-- C8: absence after deletion — on any well-formed state, `Load(k)`
after `Delete(k)` returns not-found, and `Load(k)` on a freshly
constructed map (key never stored) returns not-found. -/
theorem load_after_delete_or_fresh (m : Map K V) (k : K) (hf : K → Nat)
    (hwf : m.hm.WF) :
    (m.Delete k).Load k = none ∧ (NewMap hf : Map K V).Load k = none := by
  constructor
  · rw [Map.Delete,
      Map.Load_resizeIfNeeded { m with hm := m.hm.Delete k }
        (Hmap.WF_Delete m.hm k hwf) k]
    exact Hmap.Load_Delete_self m.hm k
  · rfl

/-- Witness state for the deletion claim: a one-entry map holding key 3. -/
def mDel : Map Nat Nat := ⟨⟨16, fun n => n, [(3, some 5)]⟩, 0, fun n => n⟩

theorem load_after_delete_or_fresh_witness :
    (mDel.Delete 3).Load 3 = none ∧
      (NewMap (fun n => n) : Map Nat Nat).Load 3 = none :=
  load_after_delete_or_fresh mDel 3 (fun n => n) (by decide)

/-- C9: a skipped resize leaves the state untouched — whenever the
resize step declines (suspend counter non-zero, live count below the
minimum, or no grow/shrink rule matching), the coordinator state,
current table reference and table contents included, is returned exactly
as it was. -/
theorem skipped_resize_identity (m : Map K V)
    (h : m.inResize ≠ 0 ∨ (m.hm.StatEntries).1 < minMapSize ∨
      (¬(maxLoadFactor * (m.hm.StatBuckets).1 < (m.hm.StatEntries).1 ∨
          maxBucketSize < (m.hm.StatBuckets).2) ∧
        ¬((m.hm.StatEntries).1 % uintW <
          5 * ((m.hm.StatEntries).2 % uintW) % uintW))) :
    m.resizeIfNeeded = m :=
  Map.resizeIfNeeded_eq_self m (resizeDecision_eq_none _ _ _ _ _ h)

theorem skipped_resize_identity_witness :
    (NewMap (fun n => n) : Map Nat Nat).resizeIfNeeded =
      (NewMap (fun n => n) : Map Nat Nat) :=
  skipped_resize_identity (NewMap (fun n => n)) (Or.inr (Or.inl (by decide)))

/-- C4: resize transparency — on any well-formed state the resize step
preserves every observation `Load` can make: the key-value pairs
observable after the step are exactly those observable before it (no
live entry is lost), and the resulting table is again well formed with
at most one item per key (no entry is duplicated). -/
theorem resize_preserves_load (m : Map K V) (k : K) (hwf : m.hm.WF) :
    (m.resizeIfNeeded).Load k = m.Load k ∧ (m.resizeIfNeeded).hm.WF :=
  ⟨Map.Load_resizeIfNeeded m hwf k, Map.WF_resizeIfNeeded m hwf⟩

/-- Witness state for the transparency claim: 64 live entries in 10
buckets, so the resize step actually rebuilds (load factor 6.4 exceeds
the high-water mark). -/
def mGrow : Map Nat Nat :=
  ⟨⟨10, fun n => n, (List.range 64).map (fun i => (i, some i))⟩, 0, fun n => n⟩

theorem resize_preserves_load_witness :
    (mGrow.resizeIfNeeded).Load 37 = mGrow.Load 37 ∧
      (mGrow.resizeIfNeeded).hm.WF :=
  resize_preserves_load mGrow 37 (by decide)

/-- C5: grow rule and precedence — at an evaluation with the suspend
counter zero, the live count at or above the minimum, and either the
load factor above the high-water mark or the largest bucket above the
chain-length bound, the resize step publishes the rebuild of the current
table at capacity exactly `2 * buckets - 1` (the bounds keep the Go
`uint` expression `2*buckets - 1` free of wrap).  No hypothesis excludes
the tombstone-dominance condition: when both rules fire, the grow
capacity wins. -/
theorem grow_rule_capacity (m : Map K V)
    (hIn : m.inResize = 0)
    (hmin : minMapSize ≤ (m.hm.StatEntries).1)
    (hgrow : maxLoadFactor * (m.hm.StatBuckets).1 < (m.hm.StatEntries).1 ∨
      maxBucketSize < (m.hm.StatBuckets).2)
    (hb1 : 1 ≤ (m.hm.StatBuckets).1)
    (hb2 : 2 * (m.hm.StatBuckets).1 < uintW) :
    m.resizeIfNeeded =
      ⟨rebuild (2 * (m.hm.StatBuckets).1 - 1) m.hasher m.hm,
        m.inResize, m.hasher⟩ := by
  have hcap : usub64 (2 * (m.hm.StatBuckets).1) 1 =
      2 * (m.hm.StatBuckets).1 - 1 := by
    rw [uintW_eq] at hb2
    unfold usub64
    rw [uintW_eq]
    omega
  have hdec : resizeDecision m.inResize (m.hm.StatEntries).1
      (m.hm.StatEntries).2 (m.hm.StatBuckets).1 (m.hm.StatBuckets).2 =
      some (usub64 (2 * (m.hm.StatBuckets).1) 1) := by
    unfold resizeDecision
    rw [if_neg (by simp [hIn]), if_neg (Nat.not_lt.2 hmin), if_pos hgrow]
  rw [Map.resizeIfNeeded, hdec, hcap]

theorem grow_rule_capacity_witness :
    mGrow.resizeIfNeeded =
      ⟨rebuild (2 * (mGrow.hm.StatBuckets).1 - 1) mGrow.hasher mGrow.hm,
        mGrow.inResize, mGrow.hasher⟩ :=
  grow_rule_capacity mGrow rfl (by decide) (Or.inl (by decide)) (by decide)
    (by decide)

/-- C6 counterexample: at statistics entries 64, deleted 200, buckets
16, largest 17, the shrink rule fires (64 < 5·200, no grow condition),
but the capacity the step publishes is the wrapped Go `uint` value
`((64 - 200) mod 2^64) / 2 = 9223372036854775740`, which is not
`(entries - deleted) / 2` read over the integers (`0` in truncated
subtraction, `-68` over `ℤ`) and is not sized to the live set. -/
theorem shrink_rule_capacity_cex :
    resizeDecision 0 64 200 16 17 = some 9223372036854775740 ∧
      (9223372036854775740 : Nat) ≠ (64 - 200) / 2 ∧
      (9223372036854775740 : Nat) = (64 + 2 ^ 64 - 200) / 2 := by
  decide

/-- C6 (amended): shrink rule — at an evaluation with the suspend
counter zero, the live count at or above the minimum, no grow condition,
tombstone dominance `entries < 5 * deleted`, and additionally
`deleted ≤ entries` (without which the Go `uint` subtraction wraps and
the capacity is enormous — see the counterexample), the resize step
publishes the rebuild of the current table at capacity exactly
`(entries - deleted) / 2`, and the rebuilt table carries zero
tombstones.  The bounds `entries < 2^64` and `5 * deleted < 2^64` state
that the statistics are genuine `uint` values whose products do not
wrap. -/
theorem shrink_rule_capacity (m : Map K V)
    (hIn : m.inResize = 0)
    (hmin : minMapSize ≤ (m.hm.StatEntries).1)
    (hng : ¬(maxLoadFactor * (m.hm.StatBuckets).1 < (m.hm.StatEntries).1 ∨
      maxBucketSize < (m.hm.StatBuckets).2))
    (hshr : (m.hm.StatEntries).1 < 5 * (m.hm.StatEntries).2)
    (hde : (m.hm.StatEntries).2 ≤ (m.hm.StatEntries).1)
    (he : (m.hm.StatEntries).1 < uintW)
    (h5d : 5 * (m.hm.StatEntries).2 < uintW) :
    m.resizeIfNeeded =
      ⟨rebuild (((m.hm.StatEntries).1 - (m.hm.StatEntries).2) / 2)
        m.hasher m.hm, m.inResize, m.hasher⟩ ∧
      ((m.resizeIfNeeded).hm.StatEntries).2 = 0 := by
  rw [uintW_eq] at he h5d
  have hcap : usub64 (m.hm.StatEntries).1 (m.hm.StatEntries).2 /
      minLoadFactor =
      ((m.hm.StatEntries).1 - (m.hm.StatEntries).2) / 2 := by
    unfold usub64 minLoadFactor
    rw [uintW_eq]
    congr 1
    omega
  have hmod : (m.hm.StatEntries).1 % uintW <
      5 * ((m.hm.StatEntries).2 % uintW) % uintW := by
    rw [uintW_eq]
    omega
  have hdec : resizeDecision m.inResize (m.hm.StatEntries).1
      (m.hm.StatEntries).2 (m.hm.StatBuckets).1 (m.hm.StatBuckets).2 =
      some (usub64 (m.hm.StatEntries).1 (m.hm.StatEntries).2 /
        minLoadFactor) := by
    unfold resizeDecision
    rw [if_neg (by simp [hIn]), if_neg (Nat.not_lt.2 hmin), if_neg hng,
      if_pos hmod]
  constructor
  · rw [Map.resizeIfNeeded, hdec, hcap]
  · rw [Map.resizeIfNeeded, hdec, hcap]
    exact rebuild_noTombstones _ m.hasher m.hm

/-- Witness state for the shrink claim: 64 live entries and 60
tombstones in 16 buckets — tombstones dominate, no grow condition, and
the shrink capacity is (64 - 60) / 2 = 2. -/
def mShrink : Map Nat Nat :=
  ⟨⟨16, fun n => n, (List.range 64).map (fun i => (i, some i)) ++
    (List.range 60).map (fun i => (64 + i, none))⟩, 0, fun n => n⟩

theorem shrink_rule_capacity_witness :
    mShrink.resizeIfNeeded =
      ⟨rebuild (((mShrink.hm.StatEntries).1 - (mShrink.hm.StatEntries).2) / 2)
        mShrink.hasher mShrink.hm, mShrink.inResize, mShrink.hasher⟩ ∧
      ((mShrink.resizeIfNeeded).hm.StatEntries).2 = 0 :=
  shrink_rule_capacity mShrink rfl (by decide) (by decide) (by decide)
    (by decide) (by decide) (by decide)

/-- C7 counterexample: the high-load-factor growth trigger compares
against 6, not 4 — at entries 80, deleted 0, buckets 16, largest 10,
the load factor 5 exceeds 4 yet the resize step declines to resize. -/
theorem policy_constants_cex :
    resizeDecision 0 80 0 16 10 = none ∧ midLoadFactor * 16 < 80 := by
  decide

/-- C7 (amended): numeric policy constants — initial capacity 16,
minimum live count 64 = 16 · 4 before a resize is considered, low-water
divisor 2, high-load-factor growth trigger 6 (the constant 4 is the mid
load factor, used only in the minimum threshold), bucket-overflow bound
18, tombstone-dominance trigger live < 5 · deleted.  The sample
evaluations pin the triggers behaviorally: load factor just above 6
grows to 31 buckets while exactly 6 does not, and deleted 13 (5·13 > 64)
shrinks while deleted 12 does not. -/
theorem policy_constants :
    iniCapacity = 16 ∧ minMapSize = 64 ∧ minLoadFactor = 2 ∧
      midLoadFactor = 4 ∧ maxLoadFactor = 6 ∧ maxBucketSize = 18 ∧
      minMapSize = iniCapacity * midLoadFactor ∧
      resizeDecision 0 97 0 16 10 = some 31 ∧
      resizeDecision 0 96 0 16 10 = none ∧
      resizeDecision 0 64 13 16 10 = some 25 ∧
      resizeDecision 0 64 12 16 10 = none ∧
      resizeDecision 0 64 0 16 19 = some 31 ∧
      resizeDecision 0 64 0 16 18 = none ∧
      resizeDecision 0 63 0 8 19 = none := by
  decide

/-- C10: unsigned wraparound in the shrink capacity — at statistics
entries 64, deleted 100 (tombstones dominate and exceed the live count),
buckets 16, largest 11 (no grow condition), the shrink capacity is
computed on Go `uint` values and wraps: the step publishes capacity
`((64 - 100) mod 2^64) / 2 = 9223372036854775790`, an enormous value
(above `2^62`) instead of one sized to the live set. -/
theorem shrink_underflow_wraps :
    resizeDecision 0 64 100 16 11 = some 9223372036854775790 ∧
      (9223372036854775790 : Nat) = (64 + 2 ^ 64 - 100) / 2 ∧
      2 ^ 62 < 9223372036854775790 ∧ 64 < 100 := by
  decide

end Claims

end Cmap
